import Mathlib

/-!
Shallow embedding of the music-theory calculation engine of the
caged-visualizer repository: the CAGED chord-shape logic
(`src/hooks/useCAGEDLogic.ts`, `src/constants/index.ts`), the quiz
generator (`useQuizLogic` / `quizConfig`), and the modes engine
(`src/systems/modes/utils/musicTheory.ts`, `modeCalculations`,
`modes/constants`).

JavaScript numbers appearing in the engine are integers throughout
(pitch classes, fret numbers, offsets); they are embedded as `Int` or
`Nat`.  The JavaScript remainder operator `%` truncates toward zero, so
it is embedded as `Int.tmod` (and as `Nat.mod` where both operands are
known non-negative, where the two agree).  JavaScript array indexing
that can fall out of range (`undefined`) is embedded with `List.get?` /
`List.getD`; fields of quiz questions that can be `undefined` in the
source are embedded as `Option`.
-/

/-- The five CAGED chord letters, `ChordType` in `src/types/index.ts`. -/
inductive ChordType where
  | C | A | G | E | D
deriving DecidableEq, Fintype

/-- Embeds `ChordQuality` in `src/types/index.ts`: selects major or minor shape table. -/
inductive ChordQuality where
  | major | minor
deriving DecidableEq, Fintype

/-- Embeds `CHROMATIC_VALUES` from `src/constants/index.ts`:
`{ C: 0, A: 9, G: 7, E: 4, D: 2 }`. -/
def CHROMATIC_VALUES : ChordType → Int
  | .C => 0
  | .A => 9
  | .G => 7
  | .E => 4
  | .D => 2

/-- The twelve chromatic note names (sharps only), the string-literal
alphabet `'C' | 'C#' | ... | 'B'` of the modes system. -/
inductive ChromaticNote where
  | C | Cs | D | Ds | E | F | Fs | G | Gs | A | As | B
deriving DecidableEq, Fintype

/-- The display string of a chromatic note, matching the source's literals. -/
def ChromaticNote.name : ChromaticNote → String
  | .C => "C" | .Cs => "C#" | .D => "D" | .Ds => "D#" | .E => "E" | .F => "F"
  | .Fs => "F#" | .G => "G" | .Gs => "G#" | .A => "A" | .As => "A#" | .B => "B"

/-- Embeds `CHROMATIC_NOTES` from `src/systems/modes/utils/musicTheory.ts`:
`['C','C#','D','D#','E','F','F#','G','G#','A','A#','B']`. -/
def CHROMATIC_NOTES : List ChromaticNote :=
  [.C, .Cs, .D, .Ds, .E, .F, .Fs, .G, .Gs, .A, .As, .B]

/-- Embeds `noteToNumber` from `musicTheory.ts`: lookup in `NOTE_TO_NUMBER`. -/
def noteToNumber : ChromaticNote → Nat
  | .C => 0 | .Cs => 1 | .D => 2 | .Ds => 3 | .E => 4 | .F => 5
  | .Fs => 6 | .G => 7 | .Gs => 8 | .A => 9 | .As => 10 | .B => 11

/-- Embeds `numberToNote` from `musicTheory.ts`:
`const normalizedNum = ((num % 12) + 12) % 12; return CHROMATIC_NOTES[normalizedNum]`.
JS `%` truncates toward zero, embedded as `Int.tmod`. -/
def numberToNote (num : Int) : ChromaticNote :=
  let normalizedNum := (Int.tmod num 12 + 12).tmod 12
  CHROMATIC_NOTES.getD normalizedNum.toNat ChromaticNote.C

/-- Embeds `CHROMATIC_TO_NOTE_NAME` from `src/constants/index.ts`, the
literal table `['C','C#','D','D#','E','F','F#','G','G#','A','A#','B']`
(written here as the names of `CHROMATIC_NOTES` in order, which is
definitionally that list). -/
def CHROMATIC_TO_NOTE_NAME : List String :=
  CHROMATIC_NOTES.map ChromaticNote.name

/-- Embeds `STRING_TUNING` from `src/constants/index.ts`:
`[4, 11, 7, 2, 9, 4]`, index 0 = high E as displayed. -/
def STRING_TUNING : List Nat := [4, 11, 7, 2, 9, 4]

/-- Embeds `STANDARD_TUNING` from `musicTheory.ts`: `[4, 9, 2, 7, 11, 4]`,
index 0 = low E. -/
def STANDARD_TUNING : List Nat := [4, 9, 2, 7, 11, 4]

/-- One entry of the CAGED shape tables in `src/constants/index.ts`. -/
structure ShapeData where
  name : String
  color : String
  pattern : List Int
  fingers : List Int
  rootNotes : List Nat
deriving DecidableEq

/-- Embeds `CAGED_SHAPE_DATA` (major shapes) from `src/constants/index.ts`. -/
def CAGED_SHAPE_DATA : ChordType → ShapeData
  | .C => ⟨"C Shape", "#FF6B6B", [0, 1, 0, 2, 3, -1], [0, 1, 0, 2, 3, -1], [4]⟩
  | .A => ⟨"A Shape", "#4ECDC4", [0, 2, 2, 2, 0, -1], [0, 4, 3, 2, 0, -1], [4]⟩
  | .G => ⟨"G Shape", "#45B7D1", [3, 0, 0, 0, 2, 3], [4, -1, 0, 0, 2, 3], [0, 5]⟩
  | .E => ⟨"E Shape", "#96CEB4", [0, 0, 1, 2, 2, 0], [0, 0, 1, 3, 2, 0], [0, 5]⟩
  | .D => ⟨"D Shape", "#FECA57", [2, 3, 2, 0, -1, -1], [2, 3, 1, 0, -1, -1], [3]⟩

/-- Embeds `CAGED_MINOR_SHAPE_DATA` (minor shapes) from `src/constants/index.ts`. -/
def CAGED_MINOR_SHAPE_DATA : ChordType → ShapeData
  | .C => ⟨"Cm Shape", "#FF6B6B", [0, 1, 0, 1, 3, -1], [0, 2, 0, 1, 4, -1], [4]⟩
  | .A => ⟨"Am Shape", "#4ECDC4", [0, 1, 2, 2, 0, -1], [0, 1, 3, 2, 0, -1], [4]⟩
  | .G => ⟨"Gm Shape", "#45B7D1", [3, 0, 0, 3, 2, 3], [4, -1, 0, 3, 1, 2], [0, 5]⟩
  | .E => ⟨"Em Shape", "#96CEB4", [0, 0, 0, 2, 2, 0], [0, 0, 0, 2, 3, 0], [0, 5]⟩
  | .D => ⟨"Dm Shape", "#FECA57", [1, 3, 2, 0, -1, -1], [1, 3, 2, 0, -1, -1], [3]⟩

/-- Embeds `CAGED_SHAPES_BY_QUALITY` from `src/constants/index.ts`. -/
def CAGED_SHAPES_BY_QUALITY : ChordQuality → ChordType → ShapeData
  | .major => CAGED_SHAPE_DATA
  | .minor => CAGED_MINOR_SHAPE_DATA

/-- Embeds `FULL_CAGED_SEQUENCE` from `src/constants/index.ts`. -/
def FULL_CAGED_SEQUENCE : List ChordType := [.C, .A, .G, .E, .D]
/-! ## CAGED logic (`src/hooks/useCAGEDLogic.ts`) -/

/-- The common position formula shared verbatim by `shapePositions` in
`useCAGEDLogic.ts` and the `position` computation in `useQuizLogic`'s
`generateQuestions`: `(targetValue - shapeRoot + 12) % 12`.  This is the
spec's `resolveOffset(targetRoot, naturalRoot)` contract. -/
def resolveOffset (targetRoot naturalRoot : Int) : Int :=
  (targetRoot - naturalRoot + 12).tmod 12

/-- Embeds `shapePositions` from `useCAGEDLogic.ts`: for the selected chord,
`positions[shapeKey] = (targetValue - shapeRoot + 12) % 12` over the
entries of `CHROMATIC_VALUES`. -/
def shapePositions (selectedChord shapeKey : ChordType) : Int :=
  (CHROMATIC_VALUES selectedChord - CHROMATIC_VALUES shapeKey + 12).tmod 12

/-- Embeds `getShapeFret` from `useCAGEDLogic.ts`.  The quality argument selects
the shape table (`shapeData = CAGED_SHAPES_BY_QUALITY[chordQuality]`). -/
def getShapeFret (quality : ChordQuality) (shapeKey : ChordType)
    (stringIndex : Nat) (basePosition : Int) : Int :=
  let patternFret := (CAGED_SHAPES_BY_QUALITY quality shapeKey).pattern.getD stringIndex 0
  if patternFret = -1 then -1
  else if patternFret = 0 ∧ basePosition = 0 then 0
  else if patternFret = 0 ∧ basePosition > 0 then basePosition
  else patternFret + basePosition

/-- Embeds `getShapesAtPosition` from `useCAGEDLogic.ts`: collect, in
`cagedSequence` order, the shapes whose computed fret equals the queried
fret and is strictly positive. -/
def getShapesAtPosition (quality : ChordQuality) (selectedChord : ChordType)
    (cagedSequence : List ChordType) (stringIndex fretNumber : Nat) : List ChordType :=
  cagedSequence.filter fun shapeKey =>
    let basePosition := shapePositions selectedChord shapeKey
    let shapeFret := getShapeFret quality shapeKey stringIndex basePosition
    decide (shapeFret = (fretNumber : Int) ∧ shapeFret > 0)

/-- The style descriptor returned by `createGradientStyle`.  A flat
`backgroundColor`, the two-colour `linear-gradient(90deg, c1 50%, c2 50%)`
split, or the n-band gradient whose stop list pairs each colour with its
`[i*100/n, (i+1)*100/n]` percentage band (percentages kept as exact
rationals rather than JS floats). -/
inductive DotStyle where
  | solid (color : String)
  | twoSplit (color1 color2 : String)
  | banded (stops : List (String × ℚ × ℚ))
deriving DecidableEq

/-- Embeds `createGradientStyle` from `useCAGEDLogic.ts`.  Returns `none` for an
empty shape list (the source function falls through and returns
`undefined` there). -/
def createGradientStyle (quality : ChordQuality) (shapes : List ChordType) : Option DotStyle :=
  if shapes.length = 1 then
    some (DotStyle.solid (CAGED_SHAPES_BY_QUALITY quality (shapes.getD 0 ChordType.C)).color)
  else if shapes.length = 2 then
    some (DotStyle.twoSplit
      (CAGED_SHAPES_BY_QUALITY quality (shapes.getD 0 ChordType.C)).color
      (CAGED_SHAPES_BY_QUALITY quality (shapes.getD 1 ChordType.C)).color)
  else if 2 < shapes.length then
    let colors := shapes.map fun shape => (CAGED_SHAPES_BY_QUALITY quality shape).color
    some (DotStyle.banded (colors.enum.map fun ic =>
      (ic.2, (ic.1 * 100 : ℚ) / colors.length, ((ic.1 + 1) * 100 : ℚ) / colors.length)))
  else none

/-- Embeds `getNoteNameAtFret` from `useCAGEDLogic.ts`:
`CHROMATIC_TO_NOTE_NAME[(STRING_TUNING[stringIndex] + fretNumber) % 12]`. -/
def getNoteNameAtFret (stringIndex fretNumber : Nat) : String :=
  let chromaticValue := (STRING_TUNING.getD stringIndex 0 + fretNumber) % 12
  CHROMATIC_TO_NOTE_NAME.getD chromaticValue ""

/-- Embeds `isRootNote` (all-shapes branch) from the `CAGEDVisualizer` component:
true iff some shape occupying the cell lists the string in its
`rootNotes`.  The component pins the major table (`CAGED_SHAPE_DATA`);
here the table is selected by `quality` via `CAGED_SHAPES_BY_QUALITY`,
matching the quality-aware `getShapesAtPosition`. -/
def isRootNote (quality : ChordQuality) (selectedChord : ChordType)
    (cagedSequence : List ChordType) (stringIndex fretNumber : Nat) : Bool :=
  (getShapesAtPosition quality selectedChord cagedSequence stringIndex fretNumber).any
    fun shapeKey => decide (stringIndex ∈ (CAGED_SHAPES_BY_QUALITY quality shapeKey).rootNotes)

/-! ## Quiz generator (`quizConfig.ts`, `useQuizLogic.ts`) -/

/-- Embeds `QuizConfig` from `src/types/index.ts`. -/
structure QuizConfig where
  questionCount : Nat
  allowedChords : List ChordType
  allowedShapes : List ChordType
deriving DecidableEq

/-- Embeds `validateQuizConfig` from `quizConfig.ts`. -/
def validateQuizConfig (config : QuizConfig) : Bool :=
  config.questionCount > 0 &&
  config.allowedChords.length ≥ 2 &&
  config.allowedShapes.length ≥ 1 &&
  config.allowedChords.length ≤ 5 &&
  config.allowedShapes.length ≤ 5

/-- Embeds `DEFAULT_QUIZ_CONFIG` from `quizConfig.ts`. -/
def DEFAULT_QUIZ_CONFIG : QuizConfig :=
  { questionCount := 5
    allowedChords := [.C, .A, .G, .E, .D]
    allowedShapes := [.C, .A, .G, .E, .D] }

/-- Embeds `QuizQuestion` from `src/types/index.ts`.  The generator reads
`allowedChords[idx]` / `allowedShapes[idx]` without a bounds check, so on
an empty list those fields are JS `undefined`; they are embedded as
`Option` (`position` is then `NaN`, embedded as `none`). -/
structure QuizQuestion where
  id : Nat
  rootChord : Option ChordType
  shapeUsed : Option ChordType
  position : Option Int
  choices : List ChordType
  correctAnswer : Option ChordType
deriving DecidableEq

/-- The destructuring swap `[a[i], a[j]] = [a[j], a[i]]` inside
`shuffleArray`. -/
def swapList {α : Type} (l : List α) (i j : Nat) : List α :=
  match l.get? i, l.get? j with
  | some a, some b => (l.set i b).set j a
  | _, _ => l

/-- The Fisher–Yates loop of `shuffleArray`:
`for (i = length-1; i > 0; i--) { j = floor(random * (i+1)); swap i j }`.
The random source is a stream `g`: call number `k` returns `g k`, and
`floor(random * (i+1))` (a uniform pick in `[0, i]`) is embedded as
`g k % (i + 1)`.  Returns the shuffled list and the next call counter. -/
def shuffleLoop {α : Type} (g : Nat → Nat) : Nat → Nat → List α → List α × Nat
  | 0, k, l => (l, k)
  | i + 1, k, l =>
    let j := g k % (i + 2)
    shuffleLoop g i (k + 1) (swapList l (i + 1) j)

/-- Embeds `shuffleArray` from `useQuizLogic.ts` (copy, then Fisher–Yates). -/
def shuffleArray {α : Type} (g : Nat → Nat) (k : Nat) (l : List α) : List α × Nat :=
  shuffleLoop g (l.length - 1) k l

/-- Embeds `generateAllChoices` from `useQuizLogic.ts`: all allowed chords in
shuffled order. -/
def generateAllChoices (g : Nat → Nat) (k : Nat) (allChords : List ChordType) :
    List ChordType × Nat :=
  shuffleArray g k allChords

/-- The body of `generateQuestions`' `for` loop, recursing on the number
of questions still to produce; `i` is the loop index and `k` the number
of `Math.random()` calls made so far.  Each iteration draws the root and
shape indices (`floor(random * length)` embedded as `g k % length`; on an
empty list JS yields index 0 and `undefined`, embedded by `List.get?`
returning `none`), computes `position = (targetValue - shapeValue + 12) % 12`,
and shuffles the full `allowedChords` list for the choices. -/
def generateQuestionsLoop (config : QuizConfig) (g : Nat → Nat) :
    Nat → Nat → Nat → List QuizQuestion
  | 0, _, _ => []
  | n + 1, i, k =>
    let rootChord := config.allowedChords.get? (g k % config.allowedChords.length)
    let shapeUsed := config.allowedShapes.get? (g (k + 1) % config.allowedShapes.length)
    let position : Option Int :=
      match rootChord, shapeUsed with
      | some r, some s => some ((CHROMATIC_VALUES r - CHROMATIC_VALUES s + 12).tmod 12)
      | _, _ => none
    let choicesNext := generateAllChoices g (k + 2) config.allowedChords
    { id := i + 1
      rootChord := rootChord
      shapeUsed := shapeUsed
      position := position
      choices := choicesNext.1
      correctAnswer := rootChord } :: generateQuestionsLoop config g n (i + 1) choicesNext.2

/-- Embeds `generateQuestions` from `useQuizLogic.ts`, with the ambient
`Math.random()` stream made explicit as `g`. -/
def generateQuestions (config : QuizConfig) (g : Nat → Nat) : List QuizQuestion :=
  generateQuestionsLoop config g config.questionCount 0 0

/-- Embeds `validateAnswer` from `useQuizLogic.ts`: strict equality against
`question.correctAnswer`. -/
def validateAnswer (question : QuizQuestion) (selectedAnswer : ChordType) : Bool :=
  question.correctAnswer = some selectedAnswer

/-! ## Modes engine (`modes/constants`, `musicTheory.ts`, `modeCalculations`) -/

/-- The seven mode identifiers (`ModeType`). -/
inductive ModeType where
  | ionian | dorian | phrygian | lydian | mixolydian | aeolian | locrian
deriving DecidableEq, Fintype

/-- Embeds `MODE_INTERVALS` from the modes constants file (semitones from root). -/
def MODE_INTERVALS : ModeType → List Nat
  | .ionian     => [0, 2, 4, 5, 7, 9, 11]
  | .dorian     => [0, 2, 3, 5, 7, 9, 10]
  | .phrygian   => [0, 1, 3, 5, 7, 8, 10]
  | .lydian     => [0, 2, 4, 6, 7, 9, 11]
  | .mixolydian => [0, 2, 4, 5, 7, 9, 10]
  | .aeolian    => [0, 2, 3, 5, 7, 8, 10]
  | .locrian    => [0, 1, 3, 5, 6, 8, 10]

/-- The `intervals` field of the `MODES` table in
`src/systems/modes/constants.ts`, keyed here by the same seven modes
(the source keys them by display name, Ionian through Locrian). -/
def MODES_intervals : ModeType → List Nat
  | .ionian     => [0, 2, 4, 5, 7, 9, 11]
  | .dorian     => [0, 2, 3, 5, 7, 9, 10]
  | .phrygian   => [0, 1, 3, 5, 7, 8, 10]
  | .lydian     => [0, 2, 4, 6, 7, 9, 11]
  | .mixolydian => [0, 2, 4, 5, 7, 9, 10]
  | .aeolian    => [0, 2, 3, 5, 7, 8, 10]
  | .locrian    => [0, 1, 3, 5, 6, 8, 10]

/-- Embeds `transposeIntervals` from `musicTheory.ts`:
`intervals.map(interval => (interval + semitones) % 12)`.  Both operands
are non-negative here, so JS `%` agrees with `Nat.mod`. -/
def transposeIntervals (intervals : List Nat) (semitones : Nat) : List Nat :=
  intervals.map fun interval => (interval + semitones) % 12

/-- Embeds `calculateModeIntervals` from `modeCalculations`. -/
def calculateModeIntervals (mode : ModeType) (rootNote : ChromaticNote) : List Nat :=
  transposeIntervals (MODE_INTERVALS mode) (noteToNumber rootNote)

/-- Embeds `getNoteAtFret` from `musicTheory.ts`.  The source throws on a string
index outside `[0, 5]`; that failure is embedded as `none`. -/
def getNoteAtFret (stringIndex fretNumber : Nat) : Option ChromaticNote :=
  if stringIndex < STANDARD_TUNING.length then
    let openStringNote := STANDARD_TUNING.getD stringIndex 0
    let noteAtFret := (openStringNote + fretNumber) % 12
    some (numberToNote (noteAtFret : Int))
  else none

/-- Embeds `ModePosition` from the modes types. -/
structure ModePosition where
  fret : Nat
  string : Nat
  note : ChromaticNote
  interval : Nat
  isRoot : Bool
deriving DecidableEq

/-- Embeds `ModePattern` from the modes types. -/
structure ModePattern where
  mode : ModeType
  rootNote : ChromaticNote
  positions : List ModePosition
deriving DecidableEq

/-- The body of `calculateModePattern`'s doubly nested loop, factored
out by cell: look up the note at the cell, test membership of its pitch
class in the transposed interval list via `indexOf` (JS `indexOf`
returning `-1` for a missing element is embedded as `List.indexOf`
returning the list's length, so the source's `intervalIndex !== -1`
check is `intervalIndex < length`), and record the position with the
original untransposed interval. -/
def modeCell (mode : ModeType) (modeIntervals : List Nat)
    (stringIndex fretNumber : Nat) : Option ModePosition :=
  match getNoteAtFret stringIndex fretNumber with
  | none => none
  | some noteAtPosition =>
    let noteNumber := noteToNumber noteAtPosition
    let intervalIndex := modeIntervals.indexOf noteNumber
    if intervalIndex < modeIntervals.length then
      let originalInterval := (MODE_INTERVALS mode).getD intervalIndex 0
      some { fret := fretNumber
             string := stringIndex
             note := noteAtPosition
             interval := originalInterval
             isRoot := decide (originalInterval = 0) }
    else none

/-- Embeds `calculateModePattern` from `modeCalculations`: for every string and
every fret up to `maxFrets`, record the cell (`modeCell`) whenever its
pitch class occurs in the transposed interval list. -/
def calculateModePattern (mode : ModeType) (rootNote : ChromaticNote)
    (maxFrets : Nat) : ModePattern :=
  let modeIntervals := calculateModeIntervals mode rootNote
  let positions : List ModePosition :=
    (List.range STANDARD_TUNING.length).flatMap fun stringIndex =>
      (List.range (maxFrets + 1)).filterMap fun fretNumber =>
        modeCell mode modeIntervals stringIndex fretNumber
  { mode := mode, rootNote := rootNote, positions := positions }


-- basic normalization lemmas shared by several claims

theorem neg_lt_tmod_twelve (p : Int) : -12 < p.tmod 12 := by
  cases p with
  | ofNat n =>
    have := Int.tmod_nonneg (a := Int.ofNat n) 12 (Int.ofNat_nonneg n)
    omega
  | negSucc n =>
    have h : (Int.negSucc n).tmod 12 = -(((n + 1) % 12 : Nat) : Int) := rfl
    have h2 : (n + 1) % 12 < 12 := Nat.mod_lt _ (by norm_num)
    rw [h]
    omega

theorem tmod_nonneg_lt (p : Int) : 0 ≤ ((Int.tmod p 12) + 12).tmod 12 ∧
    ((Int.tmod p 12) + 12).tmod 12 < 12 := by
  have h3 := Int.tmod_lt_of_pos p (b := 12) (by norm_num)
  have h4 := neg_lt_tmod_twelve p
  have h5 := Int.tmod_nonneg (a := Int.tmod p 12 + 12) 12 (by omega)
  have h6 := Int.tmod_lt_of_pos (Int.tmod p 12 + 12) (b := 12) (by norm_num)
  exact ⟨h5, h6⟩

theorem tmod_normalize_eq_emod (p : Int) :
    ((Int.tmod p 12) + 12).tmod 12 = p % 12 := by
  have h1 := Int.tmod_add_tdiv p 12
  have h2 := Int.tmod_add_tdiv (Int.tmod p 12 + 12) 12
  have h3 := Int.tmod_lt_of_pos p (b := 12) (by norm_num)
  have h4 := neg_lt_tmod_twelve p
  have h5 := Int.tmod_nonneg (a := Int.tmod p 12 + 12) 12 (by omega)
  have h6 := Int.tmod_lt_of_pos (Int.tmod p 12 + 12) (b := 12) (by norm_num)
  omega

theorem noteToNumber_getD (k : Nat) (hk : k < 12) :
    noteToNumber (CHROMATIC_NOTES.getD k ChromaticNote.C) = k := by
  interval_cases k <;> rfl

theorem numberToNote_of_lt (m : Nat) (hm : m < 12) :
    numberToNote (m : Int) = CHROMATIC_NOTES.getD m ChromaticNote.C := by
  unfold numberToNote
  have h := tmod_normalize_eq_emod (m : Int)
  have : ((Int.tmod (m : Int) 12) + 12).tmod 12 = (m : Int) := by omega
  rw [this]
  simp

theorem noteToNumber_numberToNote_nat (m : Nat) (hm : m < 12) :
    noteToNumber (numberToNote (m : Int)) = m := by
  rw [numberToNote_of_lt m hm, noteToNumber_getD m hm]


/-! ## Mode pattern lemmas -/

theorem getNoteAtFret_eq (s f : Nat) (hs : s < STANDARD_TUNING.length) :
    getNoteAtFret s f =
      some (numberToNote (((STANDARD_TUNING.getD s 0 + f) % 12 : Nat) : Int)) := by
  unfold getNoteAtFret
  rw [if_pos hs]

theorem modeCell_some_spec (mode : ModeType) (root : ChromaticNote) (s f : Nat)
    (hs : s < 6) (pos : ModePosition)
    (h : modeCell mode (calculateModeIntervals mode root) s f = some pos) :
    pos.string = s ∧ pos.fret = f ∧ pos.interval ∈ MODE_INTERVALS mode ∧
    (pos.interval + noteToNumber root) % 12 = (STANDARD_TUNING.getD s 0 + f) % 12 ∧
    noteToNumber pos.note = (STANDARD_TUNING.getD s 0 + f) % 12 ∧
    (pos.isRoot = true ↔ pos.interval = 0) := by
  have hm : (STANDARD_TUNING.getD s 0 + f) % 12 < 12 := Nat.mod_lt _ (by norm_num)
  have htuning : s < STANDARD_TUNING.length := by simpa [STANDARD_TUNING] using hs
  rw [modeCell, getNoteAtFret_eq s f htuning] at h
  set m := (STANDARD_TUNING.getD s 0 + f) % 12 with hmdef
  set MI := calculateModeIntervals mode root with hMIdef
  have h' : (if MI.indexOf (noteToNumber (numberToNote (m : Int))) < MI.length then
      some ({ fret := f, string := s, note := numberToNote (m : Int),
              interval := (MODE_INTERVALS mode).getD
                (MI.indexOf (noteToNumber (numberToNote (m : Int)))) 0,
              isRoot := decide ((MODE_INTERVALS mode).getD
                (MI.indexOf (noteToNumber (numberToNote (m : Int)))) 0 = 0) } : ModePosition)
    else none) = some pos := h
  rw [noteToNumber_numberToNote_nat m hm] at h'
  by_cases hidx : MI.indexOf m < MI.length
  · rw [if_pos hidx] at h'
    have hpos := (Option.some.inj h').symm
    subst hpos
    have hlenMI : MI.length = (MODE_INTERVALS mode).length := by
      rw [hMIdef]
      unfold calculateModeIntervals transposeIntervals
      exact List.length_map _ _
    have hidx2 : MI.indexOf m < (MODE_INTERVALS mode).length := by omega
    have horig : (MODE_INTERVALS mode).getD (MI.indexOf m) 0 =
        (MODE_INTERVALS mode).get ⟨MI.indexOf m, hidx2⟩ := by
      rw [List.getD_eq_getElem?_getD, List.getElem?_eq_getElem hidx2]
      rfl
    have hmem : (MODE_INTERVALS mode).getD (MI.indexOf m) 0 ∈ MODE_INTERVALS mode := by
      rw [horig]
      exact List.get_mem _ _ _
    have htransposed : MI.get ⟨MI.indexOf m, hidx⟩ = m := List.indexOf_get hidx
    have e1 : MI[MI.indexOf m]? = some (MI.get ⟨MI.indexOf m, hidx⟩) := by
      rw [List.getElem?_eq_getElem hidx]
      rfl
    have e2 : MI[MI.indexOf m]? =
        some (((MODE_INTERVALS mode).get ⟨MI.indexOf m, hidx2⟩ + noteToNumber root) % 12) := by
      show ((MODE_INTERVALS mode).map
        fun interval => (interval + noteToNumber root) % 12)[MI.indexOf m]? = _
      rw [List.getElem?_map, List.getElem?_eq_getElem hidx2]
      rfl
    have hmap : ((MODE_INTERVALS mode).get ⟨MI.indexOf m, hidx2⟩ + noteToNumber root) % 12
        = m :=
      (Option.some.inj (e1.symm.trans e2)).symm.trans htransposed
    refine ⟨rfl, rfl, hmem, ?_, noteToNumber_numberToNote_nat m hm, by simp⟩
    rw [horig]
    exact hmap
  · rw [if_neg hidx] at h'
    exact absurd h' (by simp)

theorem modeCell_isSome_iff (mode : ModeType) (root : ChromaticNote) (s f : Nat)
    (hs : s < 6) :
    (∃ pos, modeCell mode (calculateModeIntervals mode root) s f = some pos) ↔
      (STANDARD_TUNING.getD s 0 + f) % 12 ∈ calculateModeIntervals mode root := by
  have hm : (STANDARD_TUNING.getD s 0 + f) % 12 < 12 := Nat.mod_lt _ (by norm_num)
  have htuning : s < STANDARD_TUNING.length := by simpa [STANDARD_TUNING] using hs
  rw [modeCell, getNoteAtFret_eq s f htuning]
  set m := (STANDARD_TUNING.getD s 0 + f) % 12 with hmdef
  set MI := calculateModeIntervals mode root with hMIdef
  have hrw : (∃ pos, (if MI.indexOf (noteToNumber (numberToNote (m : Int))) < MI.length then
      some ({ fret := f, string := s, note := numberToNote (m : Int),
              interval := (MODE_INTERVALS mode).getD
                (MI.indexOf (noteToNumber (numberToNote (m : Int)))) 0,
              isRoot := decide ((MODE_INTERVALS mode).getD
                (MI.indexOf (noteToNumber (numberToNote (m : Int)))) 0 = 0) } : ModePosition)
    else none) = some pos) ↔ m ∈ MI := by
    rw [noteToNumber_numberToNote_nat m hm]
    by_cases hidx : MI.indexOf m < MI.length
    · rw [if_pos hidx]
      exact iff_of_true ⟨_, rfl⟩ (List.indexOf_lt_length.1 hidx)
    · rw [if_neg hidx]
      refine iff_of_false ?_ fun hmem => hidx (List.indexOf_lt_length.2 hmem)
      rintro ⟨pos, hpos⟩
      exact absurd hpos (by simp)
  exact hrw

theorem calculateModePattern_mem (mode : ModeType) (root : ChromaticNote)
    (maxFrets : Nat) (pos : ModePosition) :
    pos ∈ (calculateModePattern mode root maxFrets).positions ↔
      ∃ s, s < 6 ∧ ∃ f, f ≤ maxFrets ∧
        modeCell mode (calculateModeIntervals mode root) s f = some pos := by
  unfold calculateModePattern
  simp only [List.mem_flatMap, List.mem_filterMap, List.mem_range]
  constructor
  · rintro ⟨s, hs, f, hf, hcell⟩
    exact ⟨s, by simpa [STANDARD_TUNING] using hs, f, by omega, hcell⟩
  · rintro ⟨s, hs, f, hf, hcell⟩
    exact ⟨s, by simpa [STANDARD_TUNING] using hs, f, by omega, hcell⟩

/-! ## Shuffle permutation lemmas -/

theorem set_cons_perm {α : Type} :
    ∀ (xs : List α) (m : Nat) (b x : α), xs.get? m = some b →
      (b :: xs.set m x).Perm (x :: xs)
  | [], m, _, _, h => by simp at h
  | y :: t, 0, b, x, h => by
    have hyb : y = b := Option.some.inj h
    subst hyb
    exact List.Perm.swap x y t
  | y :: t, m + 1, b, x, h => by
    have step1 : (b :: y :: t.set m x).Perm (y :: b :: t.set m x) := List.Perm.swap y b _
    have step2 : (y :: b :: t.set m x).Perm (y :: x :: t) := (set_cons_perm t m b x h).cons y
    have step3 : (y :: x :: t).Perm (x :: y :: t) := List.Perm.swap x y t
    exact (step1.trans step2).trans step3

theorem set_set_perm {α : Type} :
    ∀ (l : List α) (i j : Nat) (a b : α), l.get? i = some a → l.get? j = some b →
      ((l.set i b).set j a).Perm l
  | [], i, j, a, b, hi, hj => by simp at hi
  | x :: xs, 0, 0, a, b, hi, hj => by
    have h1 : x = a := Option.some.inj hi
    have h2 : x = b := Option.some.inj hj
    subst h1; subst h2
    exact List.Perm.refl _
  | x :: xs, 0, j + 1, a, b, hi, hj => by
    have h1 : x = a := Option.some.inj hi
    subst h1
    exact set_cons_perm xs j b x hj
  | x :: xs, i + 1, 0, a, b, hi, hj => by
    have h2 : x = b := Option.some.inj hj
    subst h2
    exact set_cons_perm xs i a x hi
  | x :: xs, i + 1, j + 1, a, b, hi, hj =>
    (set_set_perm xs i j a b hi hj).cons x

theorem swapList_perm {α : Type} (l : List α) (i j : Nat) : (swapList l i j).Perm l := by
  unfold swapList
  cases hi : l.get? i with
  | none => cases l.get? j <;> exact List.Perm.refl l
  | some a =>
    cases hj : l.get? j with
    | none => exact List.Perm.refl l
    | some b => exact set_set_perm l i j a b hi hj

theorem shuffleLoop_perm {α : Type} (g : Nat → Nat) :
    ∀ (i k : Nat) (l : List α), (shuffleLoop g i k l).1.Perm l
  | 0, _, l => List.Perm.refl l
  | i + 1, k, l =>
    (shuffleLoop_perm g i (k + 1) (swapList l (i + 1) (g k % (i + 2)))).trans
      (swapList_perm l (i + 1) (g k % (i + 2)))

theorem shuffleArray_perm {α : Type} (g : Nat → Nat) (k : Nat) (l : List α) :
    (shuffleArray g k l).1.Perm l :=
  shuffleLoop_perm g (l.length - 1) k l

/-! ## Structure of generated quiz questions -/

theorem generateQuestionsLoop_mem (config : QuizConfig) (g : Nat → Nat) :
    ∀ (n i k : Nat) (q : QuizQuestion), q ∈ generateQuestionsLoop config g n i k →
      q.correctAnswer = q.rootChord ∧
      (∀ r s, q.rootChord = some r → q.shapeUsed = some s →
        q.position = some (resolveOffset (CHROMATIC_VALUES r) (CHROMATIC_VALUES s))) ∧
      q.choices.Perm config.allowedChords ∧
      (config.allowedChords ≠ [] → ∃ r ∈ config.allowedChords, q.rootChord = some r) ∧
      (config.allowedShapes ≠ [] → ∃ s ∈ config.allowedShapes, q.shapeUsed = some s) := by
  intro n
  induction n with
  | zero => intro i k q hq; simp [generateQuestionsLoop] at hq
  | succ n ih =>
    intro i k q hq
    rw [generateQuestionsLoop] at hq
    rcases List.mem_cons.1 hq with hq | hq
    · subst hq
      refine ⟨rfl, ?_, ?_, ?_, ?_⟩
      · intro r s hr hs
        simp only at hr hs ⊢
        rw [hr, hs]
        rfl
      · exact shuffleArray_perm g _ config.allowedChords
      · intro hne
        have hlen : 0 < config.allowedChords.length := List.length_pos.2 hne
        have hlt : g k % config.allowedChords.length < config.allowedChords.length :=
          Nat.mod_lt _ hlen
        rcases List.get?_eq_get hlt with hget
        exact ⟨config.allowedChords.get ⟨_, hlt⟩, List.get_mem _ _ _, hget⟩
      · intro hne
        have hlen : 0 < config.allowedShapes.length := List.length_pos.2 hne
        have hlt : g (k + 1) % config.allowedShapes.length < config.allowedShapes.length :=
          Nat.mod_lt _ hlen
        rcases List.get?_eq_get hlt with hget
        exact ⟨config.allowedShapes.get ⟨_, hlt⟩, List.get_mem _ _ _, hget⟩
    · exact ih _ _ q hq

theorem generateQuestions_mem (config : QuizConfig) (g : Nat → Nat) (q : QuizQuestion)
    (hq : q ∈ generateQuestions config g) :
      q.correctAnswer = q.rootChord ∧
      (∀ r s, q.rootChord = some r → q.shapeUsed = some s →
        q.position = some (resolveOffset (CHROMATIC_VALUES r) (CHROMATIC_VALUES s))) ∧
      q.choices.Perm config.allowedChords ∧
      (config.allowedChords ≠ [] → ∃ r ∈ config.allowedChords, q.rootChord = some r) ∧
      (config.allowedShapes ≠ [] → ∃ s ∈ config.allowedShapes, q.shapeUsed = some s) :=
  generateQuestionsLoop_mem config g _ _ _ q hq

/-! ## Claims -/

/-- C1: for all target and natural root pitch classes in `[0,11]` the
position resolver returns `(targetRoot - naturalRoot + 12) mod 12`, an
integer in `[0,11]`; this is the formula computed by `shapePositions`
for every shape key, and also by the quiz generator's `position` field;
for target root A (9) and the C shape (natural root 0) the offset
is 9. -/
theorem C1_position_resolver :
    (∀ targetRoot naturalRoot : Int, 0 ≤ targetRoot → targetRoot < 12 →
      0 ≤ naturalRoot → naturalRoot < 12 →
      resolveOffset targetRoot naturalRoot = (targetRoot - naturalRoot + 12) % 12 ∧
      0 ≤ resolveOffset targetRoot naturalRoot ∧
      resolveOffset targetRoot naturalRoot < 12) ∧
    (∀ selectedChord shapeKey : ChordType,
      shapePositions selectedChord shapeKey =
        resolveOffset (CHROMATIC_VALUES selectedChord) (CHROMATIC_VALUES shapeKey)) ∧
    (∀ (config : QuizConfig) (g : Nat → Nat), ∀ q ∈ generateQuestions config g,
      ∀ r s, q.rootChord = some r → q.shapeUsed = some s →
      q.position = some (resolveOffset (CHROMATIC_VALUES r) (CHROMATIC_VALUES s))) ∧
    shapePositions ChordType.A ChordType.C = 9 := by
  refine ⟨?_, fun _ _ => rfl, ?_, by decide⟩
  · intro t n ht0 ht12 hn0 hn12
    have hdividend : (0 : Int) ≤ t - n + 12 := by omega
    have heq : resolveOffset t n = (t - n + 12) % 12 := by
      unfold resolveOffset
      exact Int.tmod_eq_emod hdividend (by norm_num)
    refine ⟨heq, ?_, ?_⟩
    · rw [heq]; exact Int.emod_nonneg _ (by norm_num)
    · rw [heq]; exact Int.emod_lt_of_pos _ (by norm_num)
  · intro config g q hq r s hr hs
    exact (generateQuestions_mem config g q hq).2.1 r s hr hs

/-- C2: `getShapeFret` case split — pattern value `-1` ("not played")
yields `-1` regardless of offset; pattern value `0` at offset `0` stays
open (fret 0); pattern value `0` at positive offset becomes a barre at
the offset; any other pattern value `v` yields `v + offset`. -/
theorem C2_getShapeFret_cases :
    ∀ (quality : ChordQuality) (shapeKey : ChordType) (stringIndex : Nat)
      (basePosition : Int),
      let patternFret :=
        (CAGED_SHAPES_BY_QUALITY quality shapeKey).pattern.getD stringIndex 0
      (patternFret = -1 →
        getShapeFret quality shapeKey stringIndex basePosition = -1) ∧
      (patternFret = 0 → basePosition = 0 →
        getShapeFret quality shapeKey stringIndex basePosition = 0) ∧
      (patternFret = 0 → 0 < basePosition →
        getShapeFret quality shapeKey stringIndex basePosition = basePosition) ∧
      (patternFret ≠ -1 → patternFret ≠ 0 →
        getShapeFret quality shapeKey stringIndex basePosition =
          patternFret + basePosition) := by
  intro quality shapeKey stringIndex basePosition
  intro patternFret
  have hunfold : getShapeFret quality shapeKey stringIndex basePosition =
      (if patternFret = -1 then -1
       else if patternFret = 0 ∧ basePosition = 0 then 0
       else if patternFret = 0 ∧ basePosition > 0 then basePosition
       else patternFret + basePosition) := rfl
  rw [hunfold]
  refine ⟨?_, ?_, ?_, ?_⟩ <;> intro h1 <;>
    first
      | (intro h2; split_ifs <;> simp_all <;> omega)
      | (split_ifs <;> simp_all <;> omega)

/-- Witness for C2 at quality=major, shape=C, string 1, offset 9:
pattern value is 1, so the fret is `1 + 9 = 10`. -/
theorem C2_getShapeFret_cases_witness :
    getShapeFret ChordQuality.major ChordType.C 1 9 = 10 := by
  have h := C2_getShapeFret_cases ChordQuality.major ChordType.C 1 9
  have := h.2.2.2 (by decide) (by decide)
  simpa using this

/-- C3 counterexample: `generateQuestions` performs no validation and
raises no configuration error.  With `questionCount = 0` it returns an
ordinary empty list (claimed: raises `InvalidConfiguration`), and with
`questionCount = 1` and empty allowed-lists it produces a degenerate
question with `undefined` fields rather than failing. -/
theorem C3_counterexample :
    generateQuestions
      { questionCount := 0
        allowedChords := [.C, .A, .G, .E, .D]
        allowedShapes := [.C, .A, .G, .E, .D] } (fun _ => 0) = [] ∧
    generateQuestions
      { questionCount := 1, allowedChords := [], allowedShapes := [] } (fun _ => 0) =
      [{ id := 1, rootChord := none, shapeUsed := none, position := none,
         choices := [], correctAnswer := none }] := by
  exact ⟨rfl, rfl⟩

/-- C3 amended: `validateQuizConfig` classifies a configuration with
empty allowed-lists or a question count below 1 as invalid (it even
requires at least two allowed chords), but `generateQuestions` itself
performs no validation and raises nothing: with `questionCount = 0` it
silently returns zero questions. -/
theorem C3_no_generator_validation :
    ∀ (config : QuizConfig) (g : Nat → Nat),
      (config.questionCount = 0 → generateQuestions config g = []) ∧
      ((config.questionCount < 1 ∨ config.allowedChords = [] ∨
          config.allowedShapes = []) →
        validateQuizConfig config = false) := by
  intro config g
  constructor
  · intro h
    unfold generateQuestions
    rw [h]
    rfl
  · intro h
    unfold validateQuizConfig
    rcases h with h | h | h
    · have : config.questionCount = 0 := by omega
      simp [this]
    · simp [h]
    · simp [h]

/-- Witness for C3 amended at the config `{0, [], []}`. -/
theorem C3_no_generator_validation_witness :
    generateQuestions { questionCount := 0, allowedChords := [], allowedShapes := [] }
        (fun _ => 0) = [] ∧
    validateQuizConfig { questionCount := 0, allowedChords := [], allowedShapes := [] }
      = false := by
  have h := C3_no_generator_validation
    { questionCount := 0, allowedChords := [], allowedShapes := [] } (fun _ => 0)
  exact ⟨h.1 rfl, h.2 (Or.inl (by decide))⟩

/-- C6 counterexample: the Dorian interval list is `[0,2,3,5,7,9,10]`,
whose span (last minus first) is 10, not 11. -/
theorem C6_counterexample :
    ¬ ((MODE_INTERVALS ModeType.dorian).getLastD 0 -
        (MODE_INTERVALS ModeType.dorian).headD 0 = 11) := by
  decide

/-- C6 amended: every mode's interval list has 7 entries, starts at 0,
is strictly increasing with each consecutive step 1 or 2 semitones, and
has span (last minus first) 11 for Ionian and Lydian and 10 for the
other five modes (so span ∈ {10, 11}, not always 11); the `MODES` table
of the simple modes system carries the same interval lists. -/
theorem C6_mode_intervals_invariant :
    ∀ mode : ModeType,
      (MODE_INTERVALS mode).length = 7 ∧
      (MODE_INTERVALS mode).headD 0 = 0 ∧
      List.Sorted (· < ·) (MODE_INTERVALS mode) ∧
      (∀ step ∈ (MODE_INTERVALS mode).zip (MODE_INTERVALS mode).tail,
        step.2 = step.1 + 1 ∨ step.2 = step.1 + 2) ∧
      ((MODE_INTERVALS mode).getLastD 0 - (MODE_INTERVALS mode).headD 0 = 11 ∨
       (MODE_INTERVALS mode).getLastD 0 - (MODE_INTERVALS mode).headD 0 = 10) ∧
      MODES_intervals mode = MODE_INTERVALS mode := by
  intro mode
  cases mode <;> exact ⟨rfl, rfl, by decide, by decide, by decide, rfl⟩

/-- C4 counterexample: with the configuration
`{questionCount := 1, allowedChords := [C, A], allowedShapes := [E]}` the
generated question's `choices` list is a shuffle of `allowedChords`
(here `[A, C]`), not a permutation of all five chord ids. -/
theorem C4_counterexample :
    generateQuestions
      { questionCount := 1, allowedChords := [.C, .A], allowedShapes := [.E] }
      (fun _ => 0) =
      [{ id := 1, rootChord := some ChordType.C, shapeUsed := some ChordType.E,
         position := some 8, choices := [ChordType.A, ChordType.C],
         correctAnswer := some ChordType.C }] ∧
    ¬ List.Perm [ChordType.A, ChordType.C]
        [ChordType.C, ChordType.A, ChordType.G, ChordType.E, ChordType.D] := by
  refine ⟨by decide, fun h => ?_⟩
  simpa using h.length_eq

/-- C4 amended: for every configuration with non-empty `allowedChords`
and `allowedShapes` and every random stream, each generated question
draws its root from `allowedChords` and its shape from `allowedShapes`
(by the injected random index), sets `correctAnswer` to the root, sets
`position = resolveOffset(root, shapeNaturalRoot)`, and its `choices`
list is a permutation of the configured `allowedChords` — all of them,
never a sampled subset of the configured list (but only of all five
chord ids when the configuration allows all five). -/
theorem C4_question_structure :
    ∀ (config : QuizConfig) (g : Nat → Nat),
      config.allowedChords ≠ [] → config.allowedShapes ≠ [] →
      ∀ q ∈ generateQuestions config g,
        ∃ r ∈ config.allowedChords, ∃ s ∈ config.allowedShapes,
          q.rootChord = some r ∧ q.shapeUsed = some s ∧ q.correctAnswer = some r ∧
          q.position = some (resolveOffset (CHROMATIC_VALUES r) (CHROMATIC_VALUES s)) ∧
          q.choices.Perm config.allowedChords := by
  intro config g hc hs q hq
  obtain ⟨hca, hpos, hperm, hroot, hshape⟩ := generateQuestions_mem config g q hq
  obtain ⟨r, hrmem, hr⟩ := hroot hc
  obtain ⟨s, hsmem, hs'⟩ := hshape hs
  exact ⟨r, hrmem, s, hsmem, hr, hs', by rw [hca, hr], hpos r s hr hs', hperm⟩

/-- Witness for C4 amended at `{1, [C], [C]}` with the constant-zero
random stream, whose single generated question is fully explicit. -/
theorem C4_question_structure_witness :
    ∃ r ∈ [ChordType.C], ∃ s ∈ [ChordType.C],
      ({ id := 1, rootChord := some ChordType.C, shapeUsed := some ChordType.C,
         position := some 0, choices := [ChordType.C],
         correctAnswer := some ChordType.C } : QuizQuestion).rootChord = some r ∧
      ({ id := 1, rootChord := some ChordType.C, shapeUsed := some ChordType.C,
         position := some 0, choices := [ChordType.C],
         correctAnswer := some ChordType.C } : QuizQuestion).shapeUsed = some s ∧
      ({ id := 1, rootChord := some ChordType.C, shapeUsed := some ChordType.C,
         position := some 0, choices := [ChordType.C],
         correctAnswer := some ChordType.C } : QuizQuestion).correctAnswer = some r ∧
      ({ id := 1, rootChord := some ChordType.C, shapeUsed := some ChordType.C,
         position := some 0, choices := [ChordType.C],
         correctAnswer := some ChordType.C } : QuizQuestion).position =
        some (resolveOffset (CHROMATIC_VALUES r) (CHROMATIC_VALUES s)) ∧
      List.Perm
        ({ id := 1, rootChord := some ChordType.C, shapeUsed := some ChordType.C,
           position := some 0, choices := [ChordType.C],
           correctAnswer := some ChordType.C } : QuizQuestion).choices [ChordType.C] :=
  C4_question_structure
    { questionCount := 1, allowedChords := [ChordType.C], allowedShapes := [ChordType.C] }
    (fun _ => 0) (by decide) (by decide) _ (by decide)

/-- C7 counterexample: with root chord E (major), the realized E shape
sits at offset 0 and its root strings (0 and 5) are open, but
`getShapesAtPosition` only reports cells with fret > 0, so no cell of
the realized E shape is flagged as a root cell. -/
theorem C7_counterexample :
    ¬ ∃ (stringIndex fretNumber : Nat),
        ChordType.E ∈ getShapesAtPosition ChordQuality.major ChordType.E
          FULL_CAGED_SEQUENCE stringIndex fretNumber ∧
        stringIndex ∈ (CAGED_SHAPE_DATA ChordType.E).rootNotes := by
  rintro ⟨s, f, hocc, hroot⟩
  rw [getShapesAtPosition, List.mem_filter] at hocc
  obtain ⟨-, hcond⟩ := hocc
  simp only [decide_eq_true_eq] at hcond
  obtain ⟨heq, hpos⟩ := hcond
  have hs : s = 0 ∨ s = 5 := by
    simpa [CAGED_SHAPE_DATA] using hroot
  rcases hs with rfl | rfl
  · have hfret : getShapeFret ChordQuality.major ChordType.E 0
        (shapePositions ChordType.E ChordType.E) = 0 := by decide
    rw [hfret] at hpos
    exact absurd hpos (by norm_num)
  · have hfret : getShapeFret ChordQuality.major ChordType.E 5
        (shapePositions ChordType.E ChordType.E) = 0 := by decide
    rw [hfret] at hpos
    exact absurd hpos (by norm_num)

/-- C7 amended: every realized shape with a non-zero offset (shape letter
different from the root chord), and the C and G shapes even at offset 0,
has at least one cell on the 16-fret grid that `getShapesAtPosition`
reports and whose string is among the shape's `rootNotes`; for the A, E
and D shapes realized at their own root (offset 0) the root strings are
open, open cells are excluded, and no root cell exists. -/
theorem C7_root_cells :
    (∀ (quality : ChordQuality) (rootChord shapeKey : ChordType),
      (shapeKey ≠ rootChord ∨ shapeKey = ChordType.C ∨ shapeKey = ChordType.G) →
      ∃ stringIndex ∈ List.range 6, ∃ fretNumber ∈ List.range 16,
        shapeKey ∈ getShapesAtPosition quality rootChord FULL_CAGED_SEQUENCE
          stringIndex fretNumber ∧
        stringIndex ∈ (CAGED_SHAPES_BY_QUALITY quality shapeKey).rootNotes) ∧
    (∀ quality : ChordQuality,
      ∀ shapeKey ∈ [ChordType.A, ChordType.E, ChordType.D],
      ¬ ∃ stringIndex ∈ List.range 6, ∃ fretNumber ∈ List.range 16,
        shapeKey ∈ getShapesAtPosition quality shapeKey FULL_CAGED_SEQUENCE
          stringIndex fretNumber ∧
        stringIndex ∈ (CAGED_SHAPES_BY_QUALITY quality shapeKey).rootNotes) := by
  constructor
  · decide
  · decide

/-- Witness for C7 amended: the realized C shape over an A root chord
(major) has a root cell on the grid. -/
theorem C7_root_cells_witness :
    ∃ stringIndex ∈ List.range 6, ∃ fretNumber ∈ List.range 16,
      ChordType.C ∈ getShapesAtPosition ChordQuality.major ChordType.A
        FULL_CAGED_SEQUENCE stringIndex fretNumber ∧
      stringIndex ∈ (CAGED_SHAPES_BY_QUALITY ChordQuality.major ChordType.C).rootNotes :=
  C7_root_cells.1 ChordQuality.major ChordType.A ChordType.C (Or.inl (by decide))

theorem name_getD (m : Nat) (hm : m < 12) :
    (CHROMATIC_NOTES.getD m ChromaticNote.C).name = CHROMATIC_TO_NOTE_NAME.getD m "" := by
  interval_cases m <;> rfl

/-- C8: the overlap style is a deterministic function of cell occupancy.
The occupancy list is always a sublist of the CAGED sequence (band order
comes from sequence order, not from arrival order); two cells occupied
by the same set of shapes get the same style; one shape gives a flat
color; two shapes give a hard 50/50 split in list order; `n > 2` shapes
give `n` bands of equal width `100/n` in list order. -/
theorem C8_overlap_style :
    (∀ (quality : ChordQuality) (selectedChord : ChordType)
        (cagedSequence : List ChordType) (stringIndex fretNumber : Nat),
      (getShapesAtPosition quality selectedChord cagedSequence
        stringIndex fretNumber).Sublist cagedSequence) ∧
    (∀ (quality : ChordQuality) (selectedChord : ChordType)
        (cagedSequence : List ChordType) (s1 f1 s2 f2 : Nat),
      (∀ sh, sh ∈ getShapesAtPosition quality selectedChord cagedSequence s1 f1 ↔
             sh ∈ getShapesAtPosition quality selectedChord cagedSequence s2 f2) →
      createGradientStyle quality
          (getShapesAtPosition quality selectedChord cagedSequence s1 f1) =
        createGradientStyle quality
          (getShapesAtPosition quality selectedChord cagedSequence s2 f2)) ∧
    (∀ (quality : ChordQuality) (a : ChordType),
      createGradientStyle quality [a] =
        some (DotStyle.solid (CAGED_SHAPES_BY_QUALITY quality a).color)) ∧
    (∀ (quality : ChordQuality) (a b : ChordType),
      createGradientStyle quality [a, b] =
        some (DotStyle.twoSplit (CAGED_SHAPES_BY_QUALITY quality a).color
          (CAGED_SHAPES_BY_QUALITY quality b).color)) ∧
    (∀ (quality : ChordQuality) (L : List ChordType), 2 < L.length →
      ∃ stops, createGradientStyle quality L = some (DotStyle.banded stops) ∧
        stops.length = L.length ∧
        ∀ i, i < L.length →
          stops.getD i ("", 0, 0) =
            ((CAGED_SHAPES_BY_QUALITY quality (L.getD i ChordType.C)).color,
             (i * 100 : ℚ) / L.length, ((i + 1) * 100 : ℚ) / L.length)) := by
  refine ⟨?_, ?_, ?_, ?_, ?_⟩
  · intro _ _ cagedSequence _ _
    exact List.filter_sublist cagedSequence
  · intro quality selectedChord cagedSequence s1 f1 s2 f2 hmem
    have hpt : ∀ sh ∈ cagedSequence,
        (fun shapeKey => decide
          (getShapeFret quality shapeKey s1 (shapePositions selectedChord shapeKey) =
              (f1 : Int) ∧
           getShapeFret quality shapeKey s1 (shapePositions selectedChord shapeKey) > 0)) sh =
        (fun shapeKey => decide
          (getShapeFret quality shapeKey s2 (shapePositions selectedChord shapeKey) =
              (f2 : Int) ∧
           getShapeFret quality shapeKey s2 (shapePositions selectedChord shapeKey) > 0)) sh := by
      intro sh hsh
      have h1 := hmem sh
      rw [getShapesAtPosition, getShapesAtPosition, List.mem_filter, List.mem_filter] at h1
      simp only [hsh, true_and] at h1
      exact Bool.coe_iff_coe.mp h1
    have : getShapesAtPosition quality selectedChord cagedSequence s1 f1 =
        getShapesAtPosition quality selectedChord cagedSequence s2 f2 := by
      rw [getShapesAtPosition, getShapesAtPosition]
      exact List.filter_congr hpt
    rw [this]
  · intro quality a
    rfl
  · intro quality a b
    rfl
  · intro quality L hL
    have h1 : ¬ L.length = 1 := by omega
    have h2 : ¬ L.length = 2 := by omega
    refine ⟨(L.map fun shape => (CAGED_SHAPES_BY_QUALITY quality shape).color).enum.map
        (fun ic => (ic.2,
          (ic.1 * 100 : ℚ) /
            (L.map fun shape => (CAGED_SHAPES_BY_QUALITY quality shape).color).length,
          ((ic.1 + 1) * 100 : ℚ) /
            (L.map fun shape => (CAGED_SHAPES_BY_QUALITY quality shape).color).length)),
      ?_, ?_, ?_⟩
    · rw [createGradientStyle, if_neg h1, if_neg h2, if_pos hL]
    · simp
    · intro i hi
      have himap : i < (L.map fun shape =>
          (CAGED_SHAPES_BY_QUALITY quality shape).color).length := by
        simpa using hi
      rw [List.getD_eq_getElem?_getD, List.getElem?_map, List.getElem?_enum,
        List.getElem?_eq_getElem himap, List.getElem_map]
      rw [List.getD_eq_getElem?_getD, List.getElem?_eq_getElem hi]
      simp

/-- C10: the CAGED tuning table is the reverse of the modes tuning
table, and the two independently defined engines agree on every
fretboard pitch name under string-index reversal: the CAGED engine's
note name at `(s, f)` equals the modes engine's `getNoteAtFret(5 - s, f)`. -/
theorem C10_tunings_agree :
    STRING_TUNING = STANDARD_TUNING.reverse ∧
    ∀ (stringIndex fretNumber : Nat), stringIndex < 6 →
      (getNoteAtFret (5 - stringIndex) fretNumber).map ChromaticNote.name =
        some (getNoteNameAtFret stringIndex fretNumber) := by
  have key : ∀ T fretNumber : Nat, T < 12 →
      (Option.map ChromaticNote.name
        (some (numberToNote (((T + fretNumber) % 12 : Nat) : Int)))) =
      some (CHROMATIC_TO_NOTE_NAME.getD ((T + fretNumber) % 12) "") := by
    intro T f hT
    have hm : (T + f) % 12 < 12 := Nat.mod_lt _ (by norm_num)
    rw [numberToNote_of_lt _ hm]
    exact congrArg some (name_getD _ hm)
  refine ⟨by decide, ?_⟩
  intro s f hs
  interval_cases s
  · exact key 4 f (by norm_num)
  · exact key 11 f (by norm_num)
  · exact key 7 f (by norm_num)
  · exact key 2 f (by norm_num)
  · exact key 9 f (by norm_num)
  · exact key 4 f (by norm_num)

/-- Witness for C10 at string 0, fret 0: the high-E string's open note
is named "E" by both engines. -/
theorem C10_tunings_agree_witness :
    (getNoteAtFret (5 - 0) 0).map ChromaticNote.name = some (getNoteNameAtFret 0 0) :=
  C10_tunings_agree.2 0 0 (by decide)

/-- C9: for every integer `p` (negative or ≥ 12 included),
`noteToNumber (numberToNote p)` equals `p` normalized mod 12 into
`[0,11]`; `numberToNote` is total and its normalized index
`((p % 12) + 12) % 12` is always a valid index into the 12-entry
chromatic table. -/
theorem C9_numberToNote_roundtrip :
    ∀ p : Int,
      (noteToNumber (numberToNote p) : Int) = p % 12 ∧
      0 ≤ p % 12 ∧ p % 12 < 12 ∧
      ((Int.tmod p 12 + 12).tmod 12).toNat < CHROMATIC_NOTES.length := by
  intro p
  have hb := tmod_nonneg_lt p
  have he := tmod_normalize_eq_emod p
  have hlt : ((Int.tmod p 12 + 12).tmod 12).toNat < 12 := by omega
  have hnum : numberToNote p =
      CHROMATIC_NOTES.getD ((Int.tmod p 12 + 12).tmod 12).toNat ChromaticNote.C := rfl
  have hround := noteToNumber_getD _ hlt
  refine ⟨?_, ?_, ?_, ?_⟩
  · rw [hnum, hround]
    omega
  · exact Int.emod_nonneg _ (by norm_num)
  · exact Int.emod_lt_of_pos _ (by norm_num)
  · simpa [CHROMATIC_NOTES] using hlt

/-- C5: `calculateModePattern(mode, root, maxFret)` records positions
for exactly those cells (string in [0,5], fret in [0, maxFret]) whose
pitch class is a member of the mode's interval set transposed by the
root's pitch class; every recorded position carries `intervalFromRoot`
equal to the original untransposed interval (its transposition by the
root is the cell's pitch class) and `isRoot` true iff that interval
is 0; and for Ionian rooted at C the computed note set is exactly
{C, D, E, F, G, A, B}. -/
theorem C5_calculateModePattern :
    ∀ (mode : ModeType) (root : ChromaticNote) (maxFrets : Nat),
      (∀ pos ∈ (calculateModePattern mode root maxFrets).positions,
        pos.string < 6 ∧ pos.fret ≤ maxFrets ∧
        pos.interval ∈ MODE_INTERVALS mode ∧
        (pos.interval + noteToNumber root) % 12 =
          (STANDARD_TUNING.getD pos.string 0 + pos.fret) % 12 ∧
        noteToNumber pos.note = (STANDARD_TUNING.getD pos.string 0 + pos.fret) % 12 ∧
        (pos.isRoot = true ↔ pos.interval = 0)) ∧
      (∀ stringIndex fretNumber : Nat, stringIndex < 6 → fretNumber ≤ maxFrets →
        ((∃ pos ∈ (calculateModePattern mode root maxFrets).positions,
            pos.string = stringIndex ∧ pos.fret = fretNumber) ↔
          (STANDARD_TUNING.getD stringIndex 0 + fretNumber) % 12 ∈
            calculateModeIntervals mode root)) ∧
      (∀ note : ChromaticNote,
        (∃ pos ∈ (calculateModePattern ModeType.ionian ChromaticNote.C 15).positions,
            pos.note = note) ↔
          note ∈ [ChromaticNote.C, ChromaticNote.D, ChromaticNote.E, ChromaticNote.F,
                  ChromaticNote.G, ChromaticNote.A, ChromaticNote.B]) := by
  intro mode root maxFrets
  refine ⟨?_, ?_, ?_⟩
  · intro pos hpos
    obtain ⟨s, hs, f, hf, hcell⟩ := (calculateModePattern_mem mode root maxFrets pos).1 hpos
    obtain ⟨h1, h2, h3, h4, h5, h6⟩ := modeCell_some_spec mode root s f hs pos hcell
    rw [← h1] at hs
    rw [← h1, ← h2] at h4 h5
    rw [← h2] at hf
    exact ⟨hs, hf, h3, h4, h5, h6⟩
  · intro stringIndex fretNumber hs hf
    constructor
    · rintro ⟨pos, hpos, hstr, hfret⟩
      obtain ⟨s, hs', f, hf', hcell⟩ :=
        (calculateModePattern_mem mode root maxFrets pos).1 hpos
      obtain ⟨h1, h2, -, -, -, -⟩ := modeCell_some_spec mode root s f hs' pos hcell
      have hseq : s = stringIndex := by rw [← h1, hstr]
      have hfeq : f = fretNumber := by rw [← h2, hfret]
      subst hseq
      subst hfeq
      exact (modeCell_isSome_iff mode root s f hs').1 ⟨pos, hcell⟩
    · intro hmem
      obtain ⟨pos, hcell⟩ :=
        (modeCell_isSome_iff mode root stringIndex fretNumber hs).2 hmem
      obtain ⟨h1, h2, -, -, -, -⟩ :=
        modeCell_some_spec mode root stringIndex fretNumber hs pos hcell
      exact ⟨pos, (calculateModePattern_mem mode root maxFrets pos).2
        ⟨stringIndex, hs, fretNumber, hf, hcell⟩, h1, h2⟩
  · decide

/-- Witness for C5 at mode=Ionian, root=C, maxFret=15, cell (0, 0): the
open low E string's pitch class E is in the C-major set. -/
theorem C5_calculateModePattern_witness :
    (∃ pos ∈ (calculateModePattern ModeType.ionian ChromaticNote.C 15).positions,
        pos.string = 0 ∧ pos.fret = 0) ↔
      (STANDARD_TUNING.getD 0 0 + 0) % 12 ∈
        calculateModeIntervals ModeType.ionian ChromaticNote.C :=
  (C5_calculateModePattern ModeType.ionian ChromaticNote.C 15).2.1 0 0
    (by decide) (by decide)

/-- Witness for C1 at target root A (9), natural root C (0). -/
theorem C1_position_resolver_witness :
    resolveOffset 9 0 = (9 - 0 + 12) % 12 ∧
    0 ≤ resolveOffset 9 0 ∧ resolveOffset 9 0 < 12 :=
  C1_position_resolver.1 9 0 (by norm_num) (by norm_num) (by norm_num) (by norm_num)

/-- Witness for C6 at the first Ionian step (0 to 2, a whole step). -/
theorem C6_mode_intervals_invariant_witness :
    ((0, 2) ∈ (MODE_INTERVALS ModeType.ionian).zip (MODE_INTERVALS ModeType.ionian).tail) ∧
    ((2 : Nat) = 0 + 1 ∨ (2 : Nat) = 0 + 2) :=
  ⟨by decide, (C6_mode_intervals_invariant ModeType.ionian).2.2.2.1 (0, 2) (by decide)⟩

/-- Witness for C8 order-stability at two empty cells (frets beyond any
realized shape), whose occupancy sets are both empty. -/
theorem C8_overlap_style_witness :
    (∀ sh, sh ∈ getShapesAtPosition ChordQuality.major ChordType.C
        FULL_CAGED_SEQUENCE 0 30 ↔
      sh ∈ getShapesAtPosition ChordQuality.major ChordType.C
        FULL_CAGED_SEQUENCE 1 30) ∧
    createGradientStyle ChordQuality.major
        (getShapesAtPosition ChordQuality.major ChordType.C FULL_CAGED_SEQUENCE 0 30) =
      createGradientStyle ChordQuality.major
        (getShapesAtPosition ChordQuality.major ChordType.C FULL_CAGED_SEQUENCE 1 30) :=
  ⟨by decide, C8_overlap_style.2.1 ChordQuality.major ChordType.C
    FULL_CAGED_SEQUENCE 0 30 1 30 (by decide)⟩
